import Mathlib

/-!
# Verification of the hdhomerun_proxy relay core

A shallow embedding, in Lean, of the core of a Go program that bridges
HDHomeRun-style UDP broadcast discovery across a network boundary:

* the streaming message codec (`MessageCodec.Encode` / `MessageCodec.Decode`
  from the codec source file),
* the Envelope packing/unpacking performed by the two relays
  (`app_proxy.go` and `tuner_proxy.go`),
* the tunnel-connection slot state machines, the lock-usage traces and the
  network-operation traces of the relevant functions.

Machine integers are modelled as `Nat` with explicit `% 2 ^ w` where the Go
code truncates; byte slices are `List Nat`; fallible or effectful code is
modelled by explicit traces, event folds, or `Option` results.
-/

/-! ## Constants (from the codec source file) -/

def HDHomeRunDiscoveryUDPPort : Nat := 65001

def TCPPort : Nat := HDHomeRunDiscoveryUDPPort

def UDPReadTimeout : Nat := 500

def UDPReadBufferSize : Nat := 4096

def ReconnectInterval : Nat := 3

/-! ## Message codec

`MessageCodec` holds the streaming decoder state: the accumulated message
bytes (`msgBuffer`, Go's `bytes.Buffer`), the number of length-header bytes
still needed (`lengthBytesRemaining`), and the number of payload bytes still
needed (`msgBytesRemaining`). -/

structure MessageCodec where
  msgBuffer : List Nat
  lengthBytesRemaining : Nat
  msgBytesRemaining : Nat
deriving DecidableEq, Repr

/-- `NewMessageCodec` from the source: header-remaining = 2, payload-remaining
= 0, empty accumulator. -/
def NewMessageCodec : MessageCodec :=
  { msgBuffer := [], lengthBytesRemaining := 2, msgBytesRemaining := 0 }

/-- Go's `binary.BigEndian.PutUint16`: two bytes, most significant first.
`byte(v >> 8)` and `byte(v)` truncate to 8 bits, hence the `% 256`. -/
def putUint16 (v : Nat) : List Nat :=
  [(v >>> 8) % 256, v % 256]

/-- Go's `binary.BigEndian.Uint16`: `uint16(b[1]) | uint16(b[0]) << 8`. -/
def readUint16 (b0 b1 : Nat) : Nat :=
  b1 ||| (b0 <<< 8)

/-- `MessageCodec.Encode`: prepend the 2-byte big-endian length.
`uint16(len(data))` truncates the length to 16 bits, hence `% 65536`. -/
def MessageCodec.Encode (data : List Nat) : List Nat :=
  putUint16 (data.length % 65536) ++ data

/-- `MessageCodec.Decode`: the resumable streaming parser.  While header bytes
remain, each incoming byte is folded into `msgBytesRemaining` by
`mc.msgBytesRemaining |= int(data[i]) << (mc.lengthBytesRemaining * 8)` (after
the decrement).  Once the header is complete, up to
`readLen = min remaining msgBytesRemaining` bytes are appended to the buffer
in one block (`mc.msgBuffer.Write(data[i : i+readLen])`).  When the payload is
complete the message is emitted and the state resets to the fresh-codec state
before the loop continues on the leftover bytes.  The returned list collects
the `callback` invocations in order. -/
def MessageCodec.Decode (mc : MessageCodec) (data : List Nat) :
    MessageCodec × List (List Nat) :=
  if 0 < mc.lengthBytesRemaining then
    match data with
    | [] => (mc, [])
    | b :: rest =>
      let lbr := mc.lengthBytesRemaining - 1
      let mbr := mc.msgBytesRemaining ||| (b <<< (lbr * 8))
      MessageCodec.Decode ⟨mc.msgBuffer, lbr, mbr⟩ rest
  else if 0 < mc.msgBytesRemaining then
    match data with
    | [] => (mc, [])
    | x :: xs =>
      let readLen := min (x :: xs).length mc.msgBytesRemaining
      let mc' : MessageCodec :=
        ⟨mc.msgBuffer ++ (x :: xs).take readLen, mc.lengthBytesRemaining,
          mc.msgBytesRemaining - readLen⟩
      if 0 < mc'.msgBytesRemaining then (mc', [])
      else MessageCodec.Decode mc' ((x :: xs).drop readLen)
  else
    let msg := mc.msgBuffer
    let res := MessageCodec.Decode NewMessageCodec data
    (res.1, msg :: res.2)
termination_by
  (data.length, if mc.lengthBytesRemaining = 0 ∧ mc.msgBytesRemaining = 0 then 1 else 0)
decreasing_by
  · apply Prod.Lex.left
    simp
  · apply Prod.Lex.left
    simp only [List.length_drop, List.length_cons]
    omega
  · have h1 : ¬ 0 < mc.lengthBytesRemaining := by assumption
    have h2 : ¬ 0 < mc.msgBytesRemaining := by assumption
    have : (if mc.lengthBytesRemaining = 0 ∧ mc.msgBytesRemaining = 0 then 1 else 0) = 1 := by
      simp [Nat.eq_zero_of_not_pos h1, Nat.eq_zero_of_not_pos h2]
    simp only [NewMessageCodec, this]
    apply Prod.Lex.right
    simp

/-- Feeding a sequence of chunks to one codec instance, collecting all emitted
messages in order: models successive `codec.Decode(chunk, callback)` calls on
the byte chunks a stream read loop produces. -/
def decodeChunks (mc : MessageCodec) (chunks : List (List Nat)) :
    MessageCodec × List (List Nat) :=
  match chunks with
  | [] => (mc, [])
  | c :: cs =>
    let r1 := mc.Decode c
    let r2 := decodeChunks r1.1 cs
    (r2.1, r1.2 ++ r2.2)

/-! ## Envelope packing and unpacking

The Envelope layout is bytes `[0:4)` origin IPv4, `[4:6)` origin port
(big-endian u16), `[6:]` raw discovery datagram. -/

/-- The Envelope-building step shared by `TunerProxy.handleUDPBroadcasts`
(lines 319-322, `msgData`) and `AppProxy.reply` (lines 309-312, `replyMsg`):
a zero-initialised `6+n`-byte slice receives up to 4 address bytes by `copy`,
the port as big-endian u16 (`uint16(port)` truncates, hence `% 65536`), and
the payload. -/
def packEnvelope (addr : List Nat) (port : Nat) (payload : List Nat) : List Nat :=
  (addr.take 4 ++ List.replicate (4 - addr.length) 0) ++
    putUint16 (port % 65536) ++ payload

/-- `AppProxy.onReceivedMessage` (app_proxy.go lines 224-239): messages under
6 bytes are logged and dropped (`none`, no downstream action); otherwise the
origin address, big-endian origin port and inner query payload are unpacked
and returned (they drive `queryTuner`). -/
def AppProxy.onReceivedMessage (msg : List Nat) :
    Option (List Nat × Nat × List Nat) :=
  if msg.length < 6 then none
  else
    match msg.drop 4 with
    | b0 :: b1 :: queryData => some (msg.take 4, readUint16 b0 b1, queryData)
    | _ => none

/-- `TunerProxy.onMessageReceivedFromAppProxy` (tuner_proxy.go lines 340-373):
messages under 6 bytes are logged and dropped (`none`, no unicast); otherwise
the destination address, big-endian destination port and reply payload are
unpacked and returned (they drive the fresh-socket unicast back to the app). -/
def TunerProxy.onMessageReceivedFromAppProxy (msg : List Nat) :
    Option (List Nat × Nat × List Nat) :=
  if msg.length < 6 then none
  else
    match msg.drop 4 with
    | b0 :: b1 :: replyData => some (msg.take 4, readUint16 b0 b1, replyData)
    | _ => none

/-! ## App-side relay: the tunnel-connection slot

`AppProxy.handleTunerProxyConnection` (app_proxy.go lines 187-221): each
accepted connection's handler stores its connection in the shared slot when it
starts; on a read error it stores `nil` — unconditionally, without checking
whether the slot still holds its own connection.  `AppProxy.reply`
(line 319) stores `nil` on a write error.  Connections are identified by
`Nat` ids; the slot is an `Option Nat`. -/

inductive AppSlotEvent where
  /-- a new inbound connection `c` is accepted and its handler starts -/
  | accept (c : Nat)
  /-- the handler of connection `c` observes a read error on `c` -/
  | readError (c : Nat)
  /-- the reply path observes a write error on the held connection -/
  | replyWriteError
deriving DecidableEq, Repr

/-- One slot transition as the code performs it: `accept c` stores `c`
(line 194); `readError c` stores `nil` regardless of which connection the
erroring handler owns (line 211); `replyWriteError` stores `nil` (line 319). -/
def appSlotStep (s : Option Nat) (e : AppSlotEvent) : Option Nat :=
  match e with
  | .accept c => some c
  | .readError _ => none
  | .replyWriteError => none

def appSlotRun (s : Option Nat) (es : List AppSlotEvent) : Option Nat :=
  es.foldl appSlotStep s

/-! ## App-side relay: query processing and reply -/

/-- `AppProxy.reply` (app_proxy.go lines 300-321), error-free write path: if
no tunnel connection is held the reply is dropped; otherwise one reply
Envelope is built from the given origin address and port, Encoded, and
written to the held connection.  Returns the (connection, bytes) writes. -/
def AppProxy.reply (slot : Option Nat) (sourceAddr : List Nat) (sourcePort : Nat)
    (replyData : List Nat) : List (Nat × List Nat) :=
  match slot with
  | none => []
  | some c =>
    [(c, MessageCodec.Encode (packEnvelope sourceAddr sourcePort replyData))]

/-- One decoded tunnel message processed end to end by the app-side relay:
`AppProxy.onReceivedMessage` unpacks the Envelope, and the response-collection
loop of `AppProxy.queryTuner` (lines 281-295) invokes the reply callback
(lines 236-238) once per non-empty datagram received on its listening socket
before the read deadline.  `responses` are those datagrams in arrival order;
`slot` is the tunnel connection held when the replies are sent. -/
def AppProxy.processEnvelope (slot : Option Nat) (msg : List Nat)
    (responses : List (List Nat)) : List (Nat × List Nat) :=
  match AppProxy.onReceivedMessage msg with
  | none => []
  | some (sourceAddr, sourcePort, _queryData) =>
    (responses.filter (fun r => 0 < r.length)).foldr
      (fun r acc => AppProxy.reply slot sourceAddr sourcePort r ++ acc) []

/-! ## App-side relay: the network trace of `queryTuner` -/

/-- A network operation of `AppProxy.queryTuner`, sockets numbered in
creation order. -/
inductive NetOp where
  | dialUDP (sock : Nat) (remoteAddr : String)
  | udpWrite (sock : Nat) (data : List Nat)
  | listenUDP (sock : Nat) (localAddr : String)
  | setReadDeadline (sock : Nat) (ms : Nat)
  | readFromUDP (sock : Nat)
  | closeSocket (sock : Nat)
deriving DecidableEq, Repr

/-- The network-operation trace of the error-free path of
`AppProxy.queryTuner` (app_proxy.go lines 242-297): dial a UDP socket (socket
0) to the broadcast address and send the query on it; then open a *second*
UDP socket (socket 1) on an ephemeral port (`":0"`), arm its read deadline,
and read responses from that second socket — `reads` successful reads
followed by the deadline-expired read — before the deferred closes run. -/
def AppProxy.queryTunerTrace (queryData : List Nat) (reads : Nat) : List NetOp :=
  [NetOp.dialUDP 0 "255.255.255.255:65001",
   NetOp.udpWrite 0 queryData,
   NetOp.listenUDP 1 ":0",
   NetOp.setReadDeadline 1 UDPReadTimeout] ++
  List.replicate reads (NetOp.readFromUDP 1) ++
  [NetOp.readFromUDP 1, NetOp.closeSocket 1, NetOp.closeSocket 0]

def writeSockets (t : List NetOp) : List Nat :=
  t.filterMap (fun op => match op with | NetOp.udpWrite s _ => some s | _ => none)

def readSockets (t : List NetOp) : List Nat :=
  t.filterMap (fun op => match op with | NetOp.readFromUDP s => some s | _ => none)

/-! ## Lock-scope traces of the tunnel-slot accesses -/

/-- An abstract step inside a relay function, for auditing lock scopes. -/
inductive LockOp where
  /-- acquire the tunnel-slot mutex -/
  | lockAcquire
  /-- release the tunnel-slot mutex -/
  | lockRelease
  /-- read the shared connection reference -/
  | refRead
  /-- replace the shared connection reference -/
  | refWrite
  /-- a blocking tunnel write (`conn.Write`) -/
  | blockingSend
  /-- a blocking read (`conn.Read` / `ReadFromUDP`) -/
  | blockingRecv
deriving DecidableEq, Repr

/-- `TunerProxy.getTCPTransport` (tuner_proxy.go lines 209-214). -/
def TunerProxy.getTCPTransportTrace : List LockOp :=
  [.lockAcquire, .refRead, .lockRelease]

/-- `TunerProxy.setTCPTransport` (tuner_proxy.go lines 216-221). -/
def TunerProxy.setTCPTransportTrace : List LockOp :=
  [.lockAcquire, .refWrite, .lockRelease]

/-- `TunerProxy.closeTCP` (tuner_proxy.go lines 223-231); the `Close`
teardown call is not a blocking transfer. -/
def TunerProxy.closeTCPTrace : List LockOp :=
  [.lockAcquire, .refRead, .refWrite, .lockRelease]

/-- The slot accesses of one `AppProxy.handleTunerProxyConnection` handler
(app_proxy.go lines 193-195 store, 207 blocking read outside the lock,
 210-212 clear on read error). -/
def AppProxy.handleConnTrace : List LockOp :=
  [.lockAcquire, .refWrite, .lockRelease, .blockingRecv,
   .lockAcquire, .refWrite, .lockRelease]

/-- The tunnel write of `TunerProxy.handleUDPBroadcasts` (tuner_proxy.go
lines 327-334): the reference is fetched by `getTCPTransport` and the write
happens after the lock is released. -/
def TunerProxy.broadcastWriteTrace : List LockOp :=
  TunerProxy.getTCPTransportTrace ++ [.blockingSend]

/-- The tunnel read loop of `TunerProxy.connectToAppProxy` (tuner_proxy.go
lines 246-270): blocking read outside the lock, `closeTCP` on error. -/
def TunerProxy.readLoopTrace : List LockOp :=
  [.blockingRecv] ++ TunerProxy.closeTCPTrace

/-- `AppProxy.reply` (app_proxy.go lines 300-321), error-free path: the mutex
is acquired on entry and released by `defer` on return, so the reference
check, the Envelope build, the Encode and the blocking tunnel write all run
inside the critical section. -/
def AppProxy.replyTrace : List LockOp :=
  [.lockAcquire, .refRead, .blockingSend, .lockRelease]

/-- Every code path that touches a shared tunnel-connection slot, in either
relay. -/
def tunnelSlotAccessTraces : List (List LockOp) :=
  [TunerProxy.getTCPTransportTrace, TunerProxy.setTCPTransportTrace,
   TunerProxy.closeTCPTrace, TunerProxy.broadcastWriteTrace,
   TunerProxy.readLoopTrace, AppProxy.handleConnTrace, AppProxy.replyTrace]

/-- `true` iff some blocking I/O operation occurs while the lock is held. -/
def holdsLockAcrossBlocking (t : List LockOp) : Bool :=
  (t.foldl (fun (st : Bool × Bool) op =>
    match op with
    | .lockAcquire => (true, st.2)
    | .lockRelease => (false, st.2)
    | .blockingSend => (st.1, st.2 || st.1)
    | .blockingRecv => (st.1, st.2 || st.1)
    | _ => st) (false, false)).2

/-! ## Client-side relay: broadcast capture loop -/

/-- An event in the life of `TunerProxy.handleUDPBroadcasts` (tuner_proxy.go
lines 276-337), interleaved with the reconnection machine's slot updates. -/
inductive TunerEvent where
  /-- `connectToAppProxy` succeeds and stores connection `c` -/
  | connected (c : Nat)
  /-- a read or write error closes and clears the connection (`closeTCP`) -/
  | disconnected
  /-- a broadcast datagram `data` from `addr`:`port` is read and processed -/
  | datagram (addr : List Nat) (port : Nat) (data : List Nat)
deriving DecidableEq, Repr

/-- One step of the capture loop.  The loop state is only the shared
connection slot — the loop holds no datagram buffer.  A datagram is checked
against the slot at processing time (`if tp.getTCPTransport() == nil`,
line 309): while disconnected it is dropped with no output; while connected a
non-empty datagram is packed into an Envelope with the sender's address and
port, Encoded, and written to the held connection (lines 313-334). -/
def TunerProxy.broadcastStep (slot : Option Nat) (e : TunerEvent) :
    Option Nat × List (Nat × List Nat) :=
  match e with
  | .connected c => (some c, [])
  | .disconnected => (none, [])
  | .datagram addr port data =>
    match slot with
    | none => (none, [])
    | some c =>
      if 0 < data.length then
        (some c, [(c, MessageCodec.Encode (packEnvelope addr port data))])
      else (some c, [])

/-- Folding the capture loop over an event sequence, collecting every tunnel
write it performs. -/
def TunerProxy.broadcastRun (slot : Option Nat) (es : List TunerEvent) :
    Option Nat × List (Nat × List Nat) :=
  match es with
  | [] => (slot, [])
  | e :: rest =>
    let r := TunerProxy.broadcastStep slot e
    let r2 := TunerProxy.broadcastRun r.1 rest
    (r2.1, r.2 ++ r2.2)

/-! ## Client-side relay: dial-failure handling -/

/-- Models Go's `net.DNSError.Error()` for a failed lookup of `host`: the
standard library formats the message as `"lookup " + name + ": " + cause`,
where the cause for an unresolvable name is the text "no such host". -/
def dnsErrorMessage (host : String) : String :=
  "lookup " ++ host ++ ": no such host"

inductive DialFailureAction where
  /-- `os.Exit(1)` -/
  | exitProcess
  /-- `continue`: stay disconnected, retry on the next tick -/
  | retryNextTick
deriving DecidableEq, Repr

/-- The dial-failure handling of `TunerProxy.runTunerProxyMode` (tuner_proxy.go
lines 194-203): the process exits iff the error is a `*net.OpError` whose
*inner* error's message equals exactly `"no such host"`
(`opErr.Err.Error() == "no such host"`); every other failure is logged and
retried on the next tick. -/
def TunerProxy.handleDialFailure (isOpError : Bool) (innerErrMsg : String) :
    DialFailureAction :=
  if isOpError && innerErrMsg == "no such host" then .exitProcess
  else .retryNextTick


/-! ## Codec lemmas -/

/-! ### Unfolding lemmas for the streaming decoder -/

theorem MessageCodec.Decode_nil_header (mc : MessageCodec)
    (h : 0 < mc.lengthBytesRemaining) : mc.Decode [] = (mc, []) := by
  rw [MessageCodec.Decode.eq_def]
  simp [h]

theorem MessageCodec.Decode_nil_payload (mc : MessageCodec)
    (h1 : mc.lengthBytesRemaining = 0) (h2 : 0 < mc.msgBytesRemaining) :
    mc.Decode [] = (mc, []) := by
  rw [MessageCodec.Decode.eq_def]
  simp [h1, h2]

theorem MessageCodec.Decode_header (mc : MessageCodec) (b : Nat) (rest : List Nat)
    (h : 0 < mc.lengthBytesRemaining) :
    mc.Decode (b :: rest) =
      (MessageCodec.mk mc.msgBuffer (mc.lengthBytesRemaining - 1)
        (mc.msgBytesRemaining ||| (b <<< ((mc.lengthBytesRemaining - 1) * 8)))).Decode
        rest := by
  rw [MessageCodec.Decode.eq_def]
  simp [h]

theorem MessageCodec.Decode_payload_partial (mc : MessageCodec) (data : List Nat)
    (h1 : mc.lengthBytesRemaining = 0) (h2 : data ≠ [])
    (h3 : data.length < mc.msgBytesRemaining) :
    mc.Decode data =
      (MessageCodec.mk (mc.msgBuffer ++ data) 0 (mc.msgBytesRemaining - data.length),
        []) := by
  obtain ⟨x, xs, rfl⟩ := List.exists_cons_of_ne_nil h2
  rw [MessageCodec.Decode.eq_def]
  have h2' : 0 < mc.msgBytesRemaining := Nat.lt_of_le_of_lt (Nat.zero_le _) h3
  simp only [List.length_cons] at h3
  have hmin : (xs.length + 1) ⊓ mc.msgBytesRemaining = xs.length + 1 := by omega
  simp [h1, h2', hmin, h3]

theorem MessageCodec.Decode_payload_complete (mc : MessageCodec) (data : List Nat)
    (h1 : mc.lengthBytesRemaining = 0) (h2 : 0 < mc.msgBytesRemaining)
    (h3 : mc.msgBytesRemaining ≤ data.length) :
    mc.Decode data =
      (MessageCodec.mk (mc.msgBuffer ++ data.take mc.msgBytesRemaining) 0 0).Decode
        (data.drop mc.msgBytesRemaining) := by
  match data with
  | [] => simp only [List.length_nil] at h3; omega
  | x :: xs =>
    rw [MessageCodec.Decode.eq_def]
    simp only [List.length_cons] at h3
    have hmin : (xs.length + 1) ⊓ mc.msgBytesRemaining = mc.msgBytesRemaining := by
      omega
    have hc : ¬ (xs.length + 1 < mc.msgBytesRemaining) := by omega
    simp [h1, h2, hmin, hc]

theorem MessageCodec.Decode_emit (mc : MessageCodec) (data : List Nat)
    (h1 : mc.lengthBytesRemaining = 0) (h2 : mc.msgBytesRemaining = 0) :
    mc.Decode data =
      ((NewMessageCodec.Decode data).1,
        mc.msgBuffer :: (NewMessageCodec.Decode data).2) := by
  rw [MessageCodec.Decode.eq_def]
  simp [h1, h2]

/-- Streaming soundness: decoding `d1 ++ d2` in one call equals decoding `d1`
and then `d2` with the carried-over state, concatenating the emissions. -/
theorem MessageCodec.Decode_append (mc : MessageCodec) (d1 d2 : List Nat) :
    mc.Decode (d1 ++ d2) =
      (((mc.Decode d1).1.Decode d2).1,
        (mc.Decode d1).2 ++ ((mc.Decode d1).1.Decode d2).2) := by
  induction mc, d1 using MessageCodec.Decode.induct with
  | case1 mc h =>
    rw [List.nil_append, MessageCodec.Decode_nil_header mc h]
    simp
  | case2 mc h b rest lbr mbr ih =>
    rw [List.cons_append, MessageCodec.Decode_header _ _ _ h,
      MessageCodec.Decode_header _ _ _ h]
    exact ih
  | case3 mc h1 h2 =>
    rw [List.nil_append, MessageCodec.Decode_nil_payload mc (Nat.eq_zero_of_not_pos h1) h2]
    simp
  | case4 mc h1 h2 b rest readLen mcp hpos =>
    have hlbr := Nat.eq_zero_of_not_pos h1
    have hpos' : 0 < mc.msgBytesRemaining - ((b :: rest).length ⊓ mc.msgBytesRemaining) :=
      hpos
    have hlen : (b :: rest).length < mc.msgBytesRemaining := by omega
    rw [MessageCodec.Decode_payload_partial mc (b :: rest) hlbr (by simp) hlen]
    cases d2 with
    | nil =>
      rw [List.append_nil,
        MessageCodec.Decode_payload_partial mc (b :: rest) hlbr (by simp) hlen,
        MessageCodec.Decode_nil_payload _ rfl
          (show 0 < mc.msgBytesRemaining - (b :: rest).length by omega)]
      simp
    | cons y ys =>
      by_cases hsplit :
          mc.msgBytesRemaining ≤ (b :: rest).length + (y :: ys).length
      · rw [MessageCodec.Decode_payload_complete mc ((b :: rest) ++ (y :: ys)) hlbr h2
          (by rw [List.length_append]; omega)]
        rw [MessageCodec.Decode_payload_complete _ (y :: ys) rfl
          (show 0 < mc.msgBytesRemaining - (b :: rest).length by omega)
          (show mc.msgBytesRemaining - (b :: rest).length ≤ (y :: ys).length by omega)]
        have ht : List.take mc.msgBytesRemaining ((b :: rest) ++ (y :: ys)) =
            (b :: rest) ++ List.take (mc.msgBytesRemaining - (b :: rest).length) (y :: ys) := by
          rw [List.take_append_eq_append_take, List.take_of_length_le (by omega)]
        have hd : List.drop mc.msgBytesRemaining ((b :: rest) ++ (y :: ys)) =
            List.drop (mc.msgBytesRemaining - (b :: rest).length) (y :: ys) := by
          rw [List.drop_append_eq_append_drop, List.drop_of_length_le (by omega),
            List.nil_append]
        rw [ht, hd, List.append_assoc]
        simp
      · push_neg at hsplit
        rw [MessageCodec.Decode_payload_partial mc ((b :: rest) ++ (y :: ys)) hlbr
          (by simp) (by rw [List.length_append]; omega)]
        rw [MessageCodec.Decode_payload_partial _ (y :: ys) rfl (by simp)
          (show (y :: ys).length < mc.msgBytesRemaining - (b :: rest).length by omega)]
        simp [List.append_assoc]
        omega
  | case5 mc h1 h2 b rest readLen mcp hle ih =>
    have hlbr := Nat.eq_zero_of_not_pos h1
    have hle0 : ¬ 0 < mc.msgBytesRemaining - ((b :: rest).length ⊓ mc.msgBytesRemaining) :=
      hle
    have hle' : mc.msgBytesRemaining ≤ (b :: rest).length := by omega
    rw [MessageCodec.Decode_payload_complete mc ((b :: rest) ++ d2) hlbr h2
        (by rw [List.length_append]; omega),
      MessageCodec.Decode_payload_complete mc (b :: rest) hlbr h2 hle']
    have ht : List.take mc.msgBytesRemaining ((b :: rest) ++ d2) =
        List.take mc.msgBytesRemaining (b :: rest) := by
      rw [List.take_append_eq_append_take,
        Nat.sub_eq_zero_of_le hle', List.take_zero, List.append_nil]
    have hd : List.drop mc.msgBytesRemaining ((b :: rest) ++ d2) =
        List.drop mc.msgBytesRemaining (b :: rest) ++ d2 := by
      rw [List.drop_append_eq_append_drop, Nat.sub_eq_zero_of_le hle', List.drop_zero]
    rw [ht, hd]
    have hmin : (b :: rest).length ⊓ mc.msgBytesRemaining = mc.msgBytesRemaining :=
      Nat.min_eq_right hle'
    simp only [mcp, readLen, hmin, hlbr, Nat.sub_self] at ih
    exact ih
  | case6 mc data h1 h2 ih =>
    have e1 := Nat.eq_zero_of_not_pos h1
    have e2 := Nat.eq_zero_of_not_pos h2
    rw [MessageCodec.Decode_emit mc (data ++ d2) e1 e2,
      MessageCodec.Decode_emit mc data e1 e2, ih]
    simp

/-- The decoder never returns in the transient "complete message pending" state:
after any `Decode` call at least one of the two remaining-byte counters is
positive (a pending message is always emitted before returning). -/
theorem MessageCodec.Decode_state_pos (mc : MessageCodec) (d : List Nat) :
    0 < (mc.Decode d).1.lengthBytesRemaining ∨ 0 < (mc.Decode d).1.msgBytesRemaining := by
  induction mc, d using MessageCodec.Decode.induct with
  | case1 mc h =>
    rw [MessageCodec.Decode_nil_header mc h]
    exact Or.inl h
  | case2 mc h b rest lbr mbr ih =>
    rw [MessageCodec.Decode_header _ _ _ h]
    exact ih
  | case3 mc h1 h2 =>
    rw [MessageCodec.Decode_nil_payload mc (Nat.eq_zero_of_not_pos h1) h2]
    exact Or.inr h2
  | case4 mc h1 h2 b rest readLen mcp hpos =>
    have hpos' : 0 < mc.msgBytesRemaining - ((b :: rest).length ⊓ mc.msgBytesRemaining) :=
      hpos
    have hlen : (b :: rest).length < mc.msgBytesRemaining := by omega
    rw [MessageCodec.Decode_payload_partial mc (b :: rest)
      (Nat.eq_zero_of_not_pos h1) (by simp) hlen]
    right
    simpa using hpos'
  | case5 mc h1 h2 b rest readLen mcp hle ih =>
    have hlbr := Nat.eq_zero_of_not_pos h1
    have hle0 : ¬ 0 < mc.msgBytesRemaining - ((b :: rest).length ⊓ mc.msgBytesRemaining) :=
      hle
    have hle' : mc.msgBytesRemaining ≤ (b :: rest).length := by omega
    rw [MessageCodec.Decode_payload_complete mc (b :: rest) hlbr h2 hle']
    have hmin : (b :: rest).length ⊓ mc.msgBytesRemaining = mc.msgBytesRemaining :=
      Nat.min_eq_right hle'
    simp only [mcp, readLen, hmin, hlbr, Nat.sub_self] at ih
    exact ih
  | case6 mc data h1 h2 ih =>
    rw [MessageCodec.Decode_emit mc data
      (Nat.eq_zero_of_not_pos h1) (Nat.eq_zero_of_not_pos h2)]
    exact ih

theorem MessageCodec.Decode_nil (mc : MessageCodec)
    (h : 0 < mc.lengthBytesRemaining ∨ 0 < mc.msgBytesRemaining) :
    mc.Decode [] = (mc, []) := by
  by_cases hl : 0 < mc.lengthBytesRemaining
  · exact MessageCodec.Decode_nil_header mc hl
  · exact MessageCodec.Decode_nil_payload mc (Nat.eq_zero_of_not_pos hl)
      (h.resolve_left hl)

/-- Feeding chunks one call at a time equals decoding their concatenation in
one call, provided the starting state is not the transient pending-emit state
(which holds for a fresh codec and is preserved by every `Decode` call). -/
theorem decodeChunks_eq_decode_flatten (chunks : List (List Nat)) (mc : MessageCodec)
    (h : 0 < mc.lengthBytesRemaining ∨ 0 < mc.msgBytesRemaining) :
    decodeChunks mc chunks = mc.Decode chunks.flatten := by
  induction chunks generalizing mc with
  | nil =>
    rw [List.flatten_nil, MessageCodec.Decode_nil mc h]
    rfl
  | cons c cs ih =>
    rw [List.flatten_cons, MessageCodec.Decode_append]
    simp only [decodeChunks]
    rw [ih _ (MessageCodec.Decode_state_pos mc c)]

/-- Two fresh-state header bytes: consuming the first two bytes from a fresh
codec folds them into the expected-payload-length counter. -/
theorem MessageCodec.Decode_fresh_two (b1 b2 : Nat) (rest : List Nat) :
    NewMessageCodec.Decode (b1 :: b2 :: rest) =
      (MessageCodec.mk [] 0 ((0 ||| (b1 <<< (1 * 8))) ||| (b2 <<< (0 * 8)))).Decode
        rest := by
  rw [show NewMessageCodec = MessageCodec.mk [] 2 0 from rfl]
  rw [MessageCodec.Decode_header _ _ _ (by norm_num)]
  rw [MessageCodec.Decode_header _ _ _ (by norm_num)]
  rfl

/-- Decoding one encoded frame from a fresh codec emits exactly the original
payload and returns the codec to the fresh state. -/
theorem MessageCodec.Decode_Encode (m : List Nat) (hm : m.length ≤ 65535) :
    NewMessageCodec.Decode (MessageCodec.Encode m) = (NewMessageCodec, [m]) := by
  have hL : m.length % 65536 = m.length := Nat.mod_eq_of_lt (by omega)
  have hEnc : MessageCodec.Encode m = (m.length >>> 8) % 256 :: m.length % 256 :: m := by
    simp [MessageCodec.Encode, putUint16, hL]
  rw [hEnc, MessageCodec.Decode_fresh_two]
  have hv : (0 ||| (((m.length >>> 8) % 256) <<< (1 * 8))) ||| ((m.length % 256) <<< (0 * 8))
      = m.length := by
    have h8 : m.length >>> 8 = m.length / 256 := by
      rw [Nat.shiftRight_eq_div_pow]
    have hd : (m.length / 256) % 256 = m.length / 256 := Nat.mod_eq_of_lt (by omega)
    rw [Nat.one_mul, Nat.zero_mul, Nat.shiftLeft_zero, h8, hd]
    rw [Nat.zero_or, Nat.shiftLeft_eq, Nat.mul_comm]
    rw [← Nat.mul_add_lt_is_or (Nat.mod_lt _ (by norm_num)) (m.length / 256)]
    omega
  rw [hv]
  cases m with
  | nil =>
    rw [MessageCodec.Decode_emit _ _ rfl rfl,
      MessageCodec.Decode_nil_header _ (by norm_num [NewMessageCodec])]
  | cons a as =>
    rw [MessageCodec.Decode_payload_complete _ _ rfl (by simp) (Nat.le_refl _)]
    rw [List.take_length, List.drop_length, List.nil_append]
    rw [MessageCodec.Decode_emit _ _ rfl rfl,
      MessageCodec.Decode_nil_header _ (by norm_num [NewMessageCodec])]

theorem readUint16_eq (b0 b1 : Nat) (hb1 : b1 < 256) :
    readUint16 b0 b1 = 256 * b0 + b1 := by
  rw [readUint16, Nat.lor_comm, Nat.shiftLeft_eq]
  rw [show (2 : Nat) ^ 8 = 256 from rfl, Nat.mul_comm]
  rw [← Nat.mul_add_lt_is_or (show b1 < 2 ^ 8 from hb1) b0]

theorem putUint16_readUint16 (b0 b1 : Nat) (hb0 : b0 < 256) (hb1 : b1 < 256) :
    putUint16 (readUint16 b0 b1) = [b0, b1] := by
  rw [readUint16_eq b0 b1 hb1]
  simp only [putUint16, Nat.shiftRight_eq_div_pow, show (2 : Nat) ^ 8 = 256 from rfl,
    List.cons.injEq, and_true]
  omega

example : MessageCodec.Encode [7, 8, 9] = [0, 3, 7, 8, 9] := by decide

example :
    NewMessageCodec.Decode [0, 3, 7, 8, 9] = (NewMessageCodec, [[7, 8, 9]]) := by
  simp [MessageCodec.Decode, NewMessageCodec]

example :
    decodeChunks NewMessageCodec [[0], [3, 7], [8], [9]]
      = (NewMessageCodec, [[7, 8, 9]]) := by
  simp [decodeChunks, MessageCodec.Decode, NewMessageCodec]

example :
    decodeChunks NewMessageCodec [[0, 0, 0], [2, 5, 6]]
      = (NewMessageCodec, [[], [5, 6]]) := by
  simp [decodeChunks, MessageCodec.Decode, NewMessageCodec]

/-! ## Claim theorems -/

/-- C2: for every payload `m` with `0 ≤ len(m) ≤ 65535` and every partition
of `Encode(m)` into chunks (including one byte per chunk) fed successively to
`Decode`, the callback is invoked exactly once, with a byte list equal to
`m`, and the decoder returns to the fresh-codec state; no byte is dropped or
duplicated. -/
theorem codec_chunked_roundtrip (m : List Nat) (hm : m.length ≤ 65535)
    (chunks : List (List Nat)) (hc : chunks.flatten = MessageCodec.Encode m) :
    decodeChunks NewMessageCodec chunks = (NewMessageCodec, [m]) := by
  rw [decodeChunks_eq_decode_flatten chunks NewMessageCodec
    (Or.inl (by norm_num [NewMessageCodec])), hc]
  exact MessageCodec.Decode_Encode m hm

/-- Witness for C2: `m = [1,2,3]`, encoded frame `[0,3,1,2,3]` split into
four chunks. -/
theorem codec_chunked_roundtrip_witness :
    ([1, 2, 3] : List Nat).length ≤ 65535 ∧
      ([[0], [3, 1], [2], [3]] : List (List Nat)).flatten
        = MessageCodec.Encode [1, 2, 3] ∧
      decodeChunks NewMessageCodec [[0], [3, 1], [2], [3]]
        = (NewMessageCodec, [[1, 2, 3]]) :=
  ⟨by decide, by decide,
    codec_chunked_roundtrip [1, 2, 3] (by decide) [[0], [3, 1], [2], [3]] (by decide)⟩

/-- C10: `Encode` returns the 2-byte big-endian encoding of
`len(payload) mod 2^16` followed by the payload unchanged; for a payload
longer than 65535 bytes the prefix no longer equals the payload length — a
malformed frame is produced silently rather than an error. -/
theorem encode_length_field (data : List Nat) :
    (MessageCodec.Encode data).length = 2 + data.length ∧
    (MessageCodec.Encode data).drop 2 = data ∧
    readUint16 ((MessageCodec.Encode data).getD 0 0)
        ((MessageCodec.Encode data).getD 1 0) = data.length % 65536 ∧
    (65535 < data.length →
      readUint16 ((MessageCodec.Encode data).getD 0 0)
          ((MessageCodec.Encode data).getD 1 0) ≠ data.length) := by
  have hE : MessageCodec.Encode data
      = ((data.length % 65536) >>> 8) % 256 :: (data.length % 65536) % 256 :: data :=
    rfl
  have hL : data.length % 65536 < 65536 := Nat.mod_lt _ (by norm_num)
  have hread : readUint16 (((data.length % 65536) >>> 8) % 256)
      ((data.length % 65536) % 256) = data.length % 65536 := by
    rw [readUint16_eq _ _ (Nat.mod_lt _ (by norm_num)),
      Nat.shiftRight_eq_div_pow]
    have : (2 : Nat) ^ 8 = 256 := rfl
    rw [this]
    omega
  rw [hE]
  refine ⟨by simp only [List.length_cons]; omega, by simp, ?_, ?_⟩
  · simp only [List.getD_cons_zero, List.getD_cons_succ]
    exact hread
  · intro hbig
    simp only [List.getD_cons_zero, List.getD_cons_succ]
    rw [hread]
    omega

/-- Witness for C10 at a 65536-byte payload: the recovered prefix value is
not the payload length. -/
theorem encode_length_field_witness :
    65535 < (List.replicate 65536 (0 : Nat)).length ∧
      readUint16 ((MessageCodec.Encode (List.replicate 65536 (0 : Nat))).getD 0 0)
          ((MessageCodec.Encode (List.replicate 65536 (0 : Nat))).getD 1 0)
        ≠ (List.replicate 65536 (0 : Nat)).length :=
  ⟨by rw [List.length_replicate]; omega,
    (encode_length_field (List.replicate 65536 0)).2.2.2
      (by rw [List.length_replicate]; omega)⟩

/-- C6: building an Envelope for a 4-byte IPv4 address, a 16-bit port and any
payload, then parsing it, yields back exactly the original triple (in both
relays' handlers); conversely, re-building from the parsed fields of any
byte-valued message of length at least 6 restores the message — build and
parse are mutually inverse on Envelopes of length ≥ 6. -/
theorem envelope_build_parse_inverse :
    (∀ (addr : List Nat) (port : Nat) (x : List Nat),
        addr.length = 4 → port < 65536 →
          AppProxy.onReceivedMessage (packEnvelope addr port x)
              = some (addr, port, x) ∧
            TunerProxy.onMessageReceivedFromAppProxy (packEnvelope addr port x)
              = some (addr, port, x)) ∧
      (∀ (msg : List Nat), 6 ≤ msg.length → (∀ b ∈ msg, b < 256) →
        ∀ a p x, AppProxy.onReceivedMessage msg = some (a, p, x) →
          packEnvelope a p x = msg) := by
  constructor
  · intro addr port x ha hp
    have hpack : packEnvelope addr port x
        = addr ++ (port >>> 8) % 256 :: port % 256 :: x := by
      rw [packEnvelope, List.take_of_length_le (Nat.le_of_eq ha), ha,
        Nat.mod_eq_of_lt hp]
      simp [putUint16]
    have hlen : (packEnvelope addr port x).length = 6 + x.length := by
      rw [hpack]
      simp only [List.length_append, List.length_cons, ha]
      omega
    have hread : readUint16 ((port >>> 8) % 256) (port % 256) = port := by
      rw [readUint16_eq _ _ (Nat.mod_lt _ (by norm_num)),
        Nat.shiftRight_eq_div_pow]
      have h8 : (2 : Nat) ^ 8 = 256 := rfl
      rw [h8]
      omega
    constructor
    · rw [AppProxy.onReceivedMessage, if_neg (by omega), hpack,
        List.drop_left' ha, List.take_left' ha]
      simp [hread]
    · rw [TunerProxy.onMessageReceivedFromAppProxy, if_neg (by omega), hpack,
        List.drop_left' ha, List.take_left' ha]
      simp [hread]
  · intro msg h6 hb a p x hparse
    rw [AppProxy.onReceivedMessage, if_neg (by omega)] at hparse
    rcases hdrop : msg.drop 4 with _ | ⟨b0, rest1⟩
    · exfalso
      have := congrArg List.length hdrop
      simp only [List.length_drop, List.length_nil] at this
      omega
    rcases hrest : rest1 with _ | ⟨b1, rest⟩
    · exfalso
      have := congrArg List.length hdrop
      rw [hrest] at this
      simp only [List.length_drop, List.length_cons, List.length_nil] at this
      omega
    rw [hrest] at hdrop
    rw [hdrop] at hparse
    simp only [Option.some.injEq, Prod.mk.injEq] at hparse
    obtain ⟨ha, hp, hx⟩ := hparse
    have hb0 : b0 < 256 := hb b0 (List.drop_subset 4 msg (hdrop ▸ List.mem_cons_self b0 _))
    have hb1 : b1 < 256 := hb b1 (List.drop_subset 4 msg
      (hdrop ▸ List.mem_cons_of_mem b0 (List.mem_cons_self b1 _)))
    subst ha
    subst hp
    subst hx
    have hplt : readUint16 b0 b1 < 65536 := by
      rw [readUint16_eq b0 b1 hb1]
      omega
    have htlen : (msg.take 4).length = 4 := by
      rw [List.length_take]
      omega
    rw [packEnvelope, List.take_of_length_le (Nat.le_of_eq htlen), htlen,
      Nat.mod_eq_of_lt hplt, putUint16_readUint16 b0 b1 hb0 hb1]
    simp only [Nat.sub_self, List.replicate_zero, List.append_nil]
    conv_rhs => rw [← List.take_append_drop 4 msg]
    rw [hdrop, List.append_assoc]
    exact rfl

/-- Witness for C6 in both directions at concrete envelopes. -/
theorem envelope_build_parse_inverse_witness :
    (([192, 168, 1, 42] : List Nat).length = 4 ∧ 54321 < 65536 ∧
      AppProxy.onReceivedMessage (packEnvelope [192, 168, 1, 42] 54321 [81])
        = some ([192, 168, 1, 42], 54321, [81])) ∧
      (6 ≤ ([10, 0, 0, 1, 0, 80, 5] : List Nat).length ∧
        packEnvelope [10, 0, 0, 1] 80 [5] = [10, 0, 0, 1, 0, 80, 5]) :=
  ⟨⟨rfl, by decide,
    (envelope_build_parse_inverse.1 [192, 168, 1, 42] 54321 [81] rfl (by decide)).1⟩,
    ⟨by decide,
      envelope_build_parse_inverse.2 [10, 0, 0, 1, 0, 80, 5] (by decide) (by decide)
        [10, 0, 0, 1] 80 [5] (by decide)⟩⟩

/-- C7: every decoded tunnel message shorter than 6 bytes is logged and
dropped by both relays' handlers: no unpacking, no query, no unicast, no
error — the handler just returns. -/
theorem short_message_dropped (msg : List Nat) (h : msg.length < 6) :
    AppProxy.onReceivedMessage msg = none ∧
      TunerProxy.onMessageReceivedFromAppProxy msg = none := by
  constructor
  · rw [AppProxy.onReceivedMessage, if_pos h]
  · rw [TunerProxy.onMessageReceivedFromAppProxy, if_pos h]

/-- Witness for C7 at a 5-byte message. -/
theorem short_message_dropped_witness :
    ([1, 2, 3, 4, 5] : List Nat).length < 6 ∧
      (AppProxy.onReceivedMessage [1, 2, 3, 4, 5] = none ∧
        TunerProxy.onMessageReceivedFromAppProxy [1, 2, 3, 4, 5] = none) :=
  ⟨by decide, short_message_dropped [1, 2, 3, 4, 5] (by decide)⟩

/-- C4: the app-side relay receives Envelope `(192.168.1.42, 54321, "QUERY")`.
If no datagram reaches the response socket before the timeout, no reply is
emitted for the exchange.  If one response `"ANSWER"` arrives in time but no
tunnel connection is held, the reply is dropped.  If connection 7 is held,
exactly one reply — the Encoded Envelope `(192.168.1.42, 54321, "ANSWER")`
carrying the original origin — is written to it. -/
theorem appProxy_exchange_scenario :
    AppProxy.processEnvelope (some 7)
        (packEnvelope [192, 168, 1, 42] 54321 [81, 85, 69, 82, 89]) [] = [] ∧
      AppProxy.processEnvelope none
          (packEnvelope [192, 168, 1, 42] 54321 [81, 85, 69, 82, 89])
          [[65, 78, 83, 87, 69, 82]] = [] ∧
      AppProxy.processEnvelope (some 7)
          (packEnvelope [192, 168, 1, 42] 54321 [81, 85, 69, 82, 89])
          [[65, 78, 83, 87, 69, 82]]
        = [(7, MessageCodec.Encode
            (packEnvelope [192, 168, 1, 42] 54321 [65, 78, 83, 87, 69, 82]))] := by
  decide

/-- C3 evaluation at the failing trace: after connection 1 is replaced by
connection 2 (slot holds 2), a read error on the abandoned connection 1
clears the slot — the handler stores `nil` without checking that the slot
still holds its own connection — tearing down the currently held connection 2
(the claim requires the slot to keep connection 2). -/
theorem appSlot_staleReadError_clearsHeld :
    appSlotRun none [AppSlotEvent.accept 1, AppSlotEvent.accept 2] = some 2 ∧
      appSlotRun none [AppSlotEvent.accept 1, AppSlotEvent.accept 2,
        AppSlotEvent.readError 1] = none := by
  decide

/-- C1 evaluation: in the `queryTuner` network trace for the query "QUERY",
the query is written on socket 0 (the fresh broadcast socket) but every
response read happens on socket 1 (a second fresh socket bound to `":0"`) —
never on the socket that sent the query. -/
theorem queryTuner_reads_on_second_socket :
    writeSockets (AppProxy.queryTunerTrace [81, 85, 69, 82, 89] 1) = [0] ∧
      readSockets (AppProxy.queryTunerTrace [81, 85, 69, 82, 89] 1) = [1, 1] ∧
      ∀ s ∈ readSockets (AppProxy.queryTunerTrace [81, 85, 69, 82, 89] 1),
        s ∉ writeSockets (AppProxy.queryTunerTrace [81, 85, 69, 82, 89] 1) := by
  decide

/-- C9 counterexample: it is not the case that every tunnel-slot access path
in the two relays keeps blocking I/O outside its critical section — the
app-side `reply` path performs the blocking tunnel write while holding the
mutex. -/
theorem lockScope_claim_false :
    ¬ ∀ t ∈ tunnelSlotAccessTraces, holdsLockAcrossBlocking t = false := by
  decide

/-- C9 amended: every tunnel-slot access path except the app-side `reply`
holds the mutex only across the reference access, never across blocking I/O;
the app-side `reply` holds it across the Envelope build, the Encode and the
blocking tunnel write. -/
theorem lockScope_amended :
    (∀ t ∈ tunnelSlotAccessTraces, t ≠ AppProxy.replyTrace →
        holdsLockAcrossBlocking t = false) ∧
      holdsLockAcrossBlocking AppProxy.replyTrace = true := by
  decide

/-- Witness for the amended C9 at the client-side getter trace. -/
theorem lockScope_amended_witness :
    (TunerProxy.getTCPTransportTrace ∈ tunnelSlotAccessTraces ∧
        TunerProxy.getTCPTransportTrace ≠ AppProxy.replyTrace) ∧
      holdsLockAcrossBlocking TunerProxy.getTCPTransportTrace = false :=
  ⟨⟨by decide, by decide⟩,
    lockScope_amended.1 TunerProxy.getTCPTransportTrace (by decide) (by decide)⟩

/-- Running the capture loop over concatenated event sequences composes the
carried slot state and concatenates the writes. -/
theorem TunerProxy.broadcastRun_append (slot : Option Nat)
    (a b : List TunerEvent) :
    TunerProxy.broadcastRun slot (a ++ b) =
      ((TunerProxy.broadcastRun (TunerProxy.broadcastRun slot a).1 b).1,
        (TunerProxy.broadcastRun slot a).2 ++
          (TunerProxy.broadcastRun (TunerProxy.broadcastRun slot a).1 b).2) := by
  induction a generalizing slot with
  | nil => simp [TunerProxy.broadcastRun]
  | cons e rest ih =>
    simp only [List.cons_append, TunerProxy.broadcastRun, List.append_eq, ih,
      List.append_assoc]

/-- C8: a broadcast datagram processed while the tunnel slot is empty
(`Disconnected`) is discarded on the spot: the run with it inserted performs
exactly the writes of the run without it — in particular the datagram is
never written to the tunnel after a later reconnection, because the loop
state holds no datagram buffer. -/
theorem tuner_disconnected_datagram_never_delivered
    (pre post : List TunerEvent) (addr : List Nat) (port : Nat) (data : List Nat)
    (h : (TunerProxy.broadcastRun none pre).1 = none) :
    TunerProxy.broadcastRun none (pre ++ TunerEvent.datagram addr port data :: post)
      = TunerProxy.broadcastRun none (pre ++ post) := by
  rw [TunerProxy.broadcastRun_append, TunerProxy.broadcastRun_append, h]
  simp [TunerProxy.broadcastRun, TunerProxy.broadcastStep]

/-- Witness for C8: a datagram arriving after a disconnect is invisible to
the rest of the run, including a later reconnect and a delivered datagram. -/
theorem tuner_disconnected_datagram_witness :
    (TunerProxy.broadcastRun none [TunerEvent.disconnected]).1 = none ∧
      TunerProxy.broadcastRun none
          ([TunerEvent.disconnected] ++ TunerEvent.datagram [10, 0, 0, 1] 5 [9] ::
            [TunerEvent.connected 3, TunerEvent.datagram [10, 0, 0, 2] 6 [8]])
        = TunerProxy.broadcastRun none
            ([TunerEvent.disconnected] ++
              [TunerEvent.connected 3, TunerEvent.datagram [10, 0, 0, 2] 6 [8]]) :=
  ⟨by decide,
    tuner_disconnected_datagram_never_delivered [TunerEvent.disconnected]
      [TunerEvent.connected 3, TunerEvent.datagram [10, 0, 0, 2] 6 [8]]
      [10, 0, 0, 1] 5 [9] (by decide)⟩

/-- C5 evaluation: for every remote host name, a dial failure carrying Go's
DNS resolution error is *retried*, not fatal: the inner error message
`"lookup <host>: no such host"` never equals the literal `"no such host"`
that the code compares against, so the `os.Exit(1)` branch is unreachable
for a real unresolvable-hostname failure. -/
theorem unresolvable_host_is_retried (host : String) :
    TunerProxy.handleDialFailure true (dnsErrorMessage host)
      = DialFailureAction.retryNextTick := by
  rw [TunerProxy.handleDialFailure]
  have hne : (dnsErrorMessage host == "no such host") = false := by
    rw [beq_eq_false_iff_ne]
    intro hEq
    have hlen := congrArg String.length hEq
    rw [dnsErrorMessage, String.length_append, String.length_append] at hlen
    have h1 : ("lookup " : String).length = 7 := rfl
    have h2 : (": no such host" : String).length = 14 := rfl
    have h3 : ("no such host" : String).length = 12 := rfl
    omega
  rw [hne]
  simp
